import Mathlib

/-!
Verification of the scan-orchestration core of trivy-scheduler (src/main.rs).

The embedding models the pure data flow of the program:

* `Image`, `Image.new`, `imageEq`, `imageHash` — the image identity model
  (struct `Image`, `impl Image::new`, `impl PartialEq`, `impl Hash`).
* `splitChar`, `normDigest` — Rust's `str::split(':')` followed by `.nth(1)`;
  the `Option` result models the `unwrap()` panic as `none`.
* `insertImage`, `collectImages`, `Docker.get_image_list`, `aggregate`,
  `Vec.get_image_list` — the two `ImageProvider` impls.  A `HashSet<Image>`
  is modelled as a list with no two members sharing an `id` (insertion keeps
  the existing member on collision, as Rust's `HashSet::insert` does); a
  host's container query result is `Except String (List Container)`, and the
  outer `Option` models process abort (panic).
* `run_trivy`, `check_images` — the scan runner.  The external scanner is an
  oracle `spawn : Image → Option (Nat × String)` giving the exit code and the
  captured stdout; `none` models an OS-level spawn failure, which the source
  turns into a panic via `.expect("failed to run trivy")`.
* `trivyEnv`, `envLookup` — the scanner subprocess environment built by
  `env_clear` / `env("TRIVY_TEMPLATE", …)` / `envs(filtered parent env)`.
* `replaceL`, `strReplace`, `renderMessage`, `send_notification` — the
  notifier; `strReplace` is Rust's `str::replace` (leftmost, non-overlapping,
  all occurrences), and the external sender is an oracle
  `sender : String → String → Option Bool`.
* `run_checker` — one complete orchestration run, returning the stdout lines,
  the notifications handed to the sender, and the stderr lines.
-/

namespace TrivyScheduler

/-- Rust `str::split(sep)` on a character separator: `n` separators yield
`n + 1` pieces, empty pieces included. -/
def splitChar (sep : Char) : List Char → List (List Char)
  | [] => [[]]
  | c :: cs =>
    if c = sep then [] :: splitChar sep cs
    else
      match splitChar sep cs with
      | [] => [[c]]
      | p :: ps => (c :: p) :: ps

/-- Embeds `id.split(':').nth(1)`: the digest with the algorithm tag stripped.
`none` models the `unwrap()` panic when no `:` occurs in the input. -/
def normDigest (id : String) : Option String :=
  ((splitChar ':' id.data)[1]?).map String.mk

/-- The `Image` struct: a display name and the normalized content digest. -/
structure Image where
  name : String
  id : String
deriving DecidableEq

/-- Embeds `Image::new`: stores the name verbatim and the digest after stripping the
algorithm tag; `none` models the panic on a digest without a colon. -/
def Image.new (name id : String) : Option Image :=
  (normDigest id).map (fun d => ⟨name, d⟩)

/-- Embeds `impl PartialEq for Image`: equality compares only the `id` field. -/
def imageEq (a b : Image) : Bool := a.id == b.id

/-- Embeds `impl Hash for Image`: only the `id` field is fed to the hasher, so the
hash of an image under any hasher is the hasher applied to its `id`. -/
def imageHash (hasher : String → Nat) (img : Image) : Nat := hasher img.id

/-- One entry of a container listing, as used by `get_image_list`:
`c.image` (display name) and `c.image_id` (digest-qualified id). -/
structure Container where
  image : String
  image_id : String
deriving DecidableEq

/-- Models `HashSet<Image>` insertion: on an `imageEq` collision the existing member
is kept, otherwise the image is appended. -/
def insertImage (s : List Image) (img : Image) : List Image :=
  if s.any (fun x => imageEq x img) then s else s ++ [img]

/-- Collecting `containers.map(|c| Image::new(&c.image, &c.image_id))` into a
`HashSet<Image>`; `none` models the panic inside `Image::new`. -/
def collectImages (acc : List Image) : List Container → Option (List Image)
  | [] => some acc
  | c :: cs =>
    match Image.new c.image c.image_id with
    | none => none
    | some img => collectImages (insertImage acc img) cs

/-- Embeds `impl ImageProvider for Docker`: an `Ok` container listing becomes
`Some(set)` with no log output; an `Err` is logged to stderr and becomes
`None`.  The outer `Option` models process abort (panic in `Image::new`). -/
def Docker.get_image_list (r : Except String (List Container)) :
    Option (Option (List Image) × List String) :=
  match r with
  | .ok cs => (collectImages [] cs).map (fun s => (some s, []))
  | .error e => some (none, ["Error fetching images: " ++ e])

/-- Models `HashSet::extend`: insert each new image into the accumulated set. -/
def extendImages (s newImgs : List Image) : List Image :=
  newImgs.foldl insertImage s

/-- The loop body of `impl ImageProvider for Vec<Docker>`: query each host in
turn, extend the shared set on `Some`, skip on `None`. -/
def aggregate (acc : List Image) (logs : List String) :
    List (Except String (List Container)) → Option (List Image × List String)
  | [] => some (acc, logs)
  | h :: hs =>
    match Docker.get_image_list h with
    | none => none
    | some (none, l) => aggregate acc (logs ++ l) hs
    | some (some imgs, l) => aggregate (extendImages acc imgs) (logs ++ l) hs

/-- Embeds `impl ImageProvider for Vec<Docker>::get_image_list`, starting from the
empty set.  It always produces `Some` unless a panic occurs. -/
def Vec.get_image_list (hosts : List (Except String (List Container))) :
    Option (List Image × List String) :=
  aggregate [] [] hosts

/-- Bool-valued: does `pat` occur at the head of the list?  This is the
character-level model of Rust's `str::starts_with` prefix test. -/
def leadsWith : List Char → List Char → Bool
  | [], _ => true
  | _ :: _, [] => false
  | p :: ps, c :: cs => p == c && leadsWith ps cs

/-- Embeds `key.starts_with("TRIVY")`: the filter applied to the parent
environment's variable names. -/
def startsWithTrivy (k : String) : Bool :=
  leadsWith ("TRIVY".data) k.data

/-- The filtered parent environment plus the fixed template variable, in the
order the source sets them: `env_clear()`, then `env("TRIVY_TEMPLATE", …)`,
then `envs(parent vars whose name starts with "TRIVY")`.  Later entries
override earlier ones on lookup. -/
def trivyEnv (parent : List (String × String)) : List (String × String) :=
  ("TRIVY_TEMPLATE", "@templates/html.tpl") ::
    parent.filter (fun kv => startsWithTrivy kv.1)

/-- Lookup in an environment list where the last binding of a key wins. -/
def envLookup (e : List (String × String)) (k : String) : Option String :=
  (e.reverse.find? (fun kv => kv.1 == k)).map Prod.snd

/-- Embeds `run_trivy`: spawn the scanner on the image; `spawn` returns the exit
code and captured stdout, or `none` on an OS-level spawn failure, which the
source converts to a panic (`none` here).  The returned `Bool` is
`output.status.success()`, i.e. exit code zero. -/
def run_trivy (spawn : Image → Option (Nat × String)) (img : Image) :
    Option (Bool × String) :=
  (spawn img).map (fun r => (r.1 == 0, r.2))

/-- Embeds `check_images`: scan each image, collecting the stdout lines
(`"Checking {image}"` plus the scanner output) and the vulnerable list; an
image is pushed exactly when `run_trivy` reports failure. -/
def check_images (spawn : Image → Option (Nat × String)) :
    List Image → Option (List String × List Image)
  | [] => some ([], [])
  | img :: rest =>
    match run_trivy spawn img with
    | none => none
    | some (ok, out) =>
      (check_images spawn rest).map
        (fun r => (("Checking " ++ img.name) :: out :: r.1,
                   if ok then r.2 else img :: r.2))

/-- Bool-valued: does `pat` occur anywhere in the list? -/
def containsSub (pat : List Char) : List Char → Bool
  | [] => pat.isEmpty
  | c :: cs => leadsWith pat (c :: cs) || containsSub pat cs

/-- Rust `str::replace`: replace every leftmost non-overlapping occurrence of
`pat` by `rep`, scanning left to right.  (The source only ever calls it with
the non-empty patterns `"{name}"` and `"{id}"`.) -/
def replaceL (pat rep : List Char) : List Char → List Char
  | [] => []
  | c :: cs =>
    if h : pat ≠ [] ∧ leadsWith pat (c :: cs) = true then
      rep ++ replaceL pat rep ((c :: cs).drop pat.length)
    else
      c :: replaceL pat rep cs
termination_by s => s.length
decreasing_by
  · simp only [List.length_drop, List.length_cons]
    have hp : 1 ≤ pat.length := List.length_pos.mpr h.1
    omega
  · simp

/-- Rust `str::replace` lifted to `String`. -/
def strReplace (s pat rep : String) : String :=
  ⟨replaceL pat.data rep.data s.data⟩

/-- The message rendering in `send_notification`:
`template.replace("{name}", name).replace("{id}", id)`. -/
def renderMessage (tmpl : String) (img : Image) : String :=
  strReplace (strReplace tmpl "{name}" img.name) "{id}" img.id

/-- Embeds `send_notification`: render the message, invoke the external sender
(an oracle returning `none` on spawn failure, otherwise the exit status),
and log to stderr unless the sender succeeded.  Returns the `(url, message)`
pair handed to the sender and the stderr lines. -/
def send_notification (sender : String → String → Option Bool) (img : Image)
    (url tmpl : String) : (String × String) × List String :=
  let msg := renderMessage tmpl img
  ((url, msg),
   if sender url msg = some true then [] else ["Failed to send notification"])

/-- Embeds `run_checker`: one orchestration run.  Returns `(stdout lines,
notifications handed to the sender, stderr lines)`; `none` models a panic
(in `Image::new` or in `run_trivy`).  The `unwrap()` on the provider result
never fires because the `Vec` provider always returns `Some`. -/
def run_checker (spawn : Image → Option (Nat × String))
    (sender : String → String → Option Bool)
    (hosts : List (Except String (List Container))) (url tmpl : String) :
    Option (List String × List (String × String) × List String) :=
  match Vec.get_image_list hosts with
  | none => none
  | some (images, logs) =>
    match check_images spawn images with
    | none => none
    | some (outLines, vulnerable) =>
      let notifs := vulnerable.map (fun img => send_notification sender img url tmpl)
      some (outLines
              ++ (if vulnerable.isEmpty then ["No vulnerabilities found"] else [])
              ++ vulnerable.map (fun img => "Found vulnerabilities in " ++ img.name),
            notifs.map Prod.fst,
            logs ++ (notifs.map Prod.snd).flatten)

/-- Does some `Ok` host in the collection report a container whose normalized
digest is `d`?  (The union over succeeding hosts, membership-style.) -/
def okHostHasDigest (d : String) : Except String (List Container) → Bool
  | .ok cs => cs.any (fun c => normDigest c.image_id == some d)
  | .error _ => false

/-- The stderr line contributed by a host query, if any. -/
def hostLog : Except String (List Container) → Option String
  | .ok _ => none
  | .error e => some ("Error fetching images: " ++ e)

/-- Every container of an `Ok` host has a normalizable digest (so the run
does not panic on that host); an `Err` host vacuously parses. -/
def hostParses : Except String (List Container) → Bool
  | .ok cs => cs.all (fun c => (normDigest c.image_id).isSome)
  | .error _ => true

/-- Is this host's query an error? -/
def isErrorHost : Except String (List Container) → Bool
  | .ok _ => false
  | .error _ => true

/-- Set membership by digest: does the set hold an image with id `d`? -/
def hasId (s : List Image) (d : String) : Bool :=
  s.any (fun img => img.id == d)

/-- The `HashSet` invariant: no two members share an `id`. -/
def distinctIds (s : List Image) : Prop :=
  s.Pairwise (fun a b => a.id ≠ b.id)

/-! ### Lemmas about digest splitting and normalization -/

theorem splitChar_no_sep (sep : Char) (l : List Char) (h : sep ∉ l) :
    splitChar sep l = [l] := by
  induction l with
  | nil => rfl
  | cons c cs ih =>
    simp only [List.mem_cons, not_or] at h
    have hc : ¬ c = sep := fun hq => h.1 hq.symm
    rw [splitChar, if_neg hc, ih h.2]

theorem splitChar_sep_append (sep : Char) (a b : List Char) (h : sep ∉ a) :
    splitChar sep (a ++ sep :: b) = a :: splitChar sep b := by
  induction a with
  | nil => simp [splitChar]
  | cons c a' ih =>
    simp only [List.mem_cons, not_or] at h
    have hc : ¬ c = sep := fun hq => h.1 hq.symm
    rw [List.cons_append, splitChar, if_neg hc, ih h.2]

theorem normDigest_no_colon (id : String) (h : ':' ∉ id.data) :
    normDigest id = none := by
  rw [normDigest, splitChar_no_sep ':' id.data h]
  rfl

theorem normDigest_strip (a rest : List Char) (id : String)
    (hid : id.data = a ++ ':' :: rest) (ha : ':' ∉ a) (hr : ':' ∉ rest) :
    normDigest id = some ⟨rest⟩ := by
  rw [normDigest, hid, splitChar_sep_append ':' a rest ha,
    splitChar_no_sep ':' rest hr]
  rfl

theorem normDigest_middle (a b c : List Char) (id : String)
    (hid : id.data = a ++ ':' :: (b ++ ':' :: c)) (ha : ':' ∉ a) (hb : ':' ∉ b) :
    normDigest id = some ⟨b⟩ := by
  rw [normDigest, hid, splitChar_sep_append ':' a _ ha,
    splitChar_sep_append ':' b c hb]
  simp

/-! ### Lemmas about the deduplicated image set -/

theorem hasId_iff (s : List Image) (d : String) :
    hasId s d = true ↔ ∃ img ∈ s, img.id = d := by
  simp [hasId]

theorem hasId_insert (s : List Image) (img : Image) (d : String) :
    hasId (insertImage s img) d = true ↔ hasId s d = true ∨ img.id = d := by
  unfold insertImage
  split
  · rename_i hany
    constructor
    · exact Or.inl
    · rintro (h | h)
      · exact h
      · rcases List.any_eq_true.mp hany with ⟨x, hx, hxe⟩
        simp only [imageEq, beq_iff_eq] at hxe
        exact (hasId_iff s d).mpr ⟨x, hx, by rw [hxe, h]⟩
  · simp only [hasId_iff, List.mem_append, List.mem_singleton]
    constructor
    · rintro ⟨x, hx | hx, hxd⟩
      · exact Or.inl ⟨x, hx, hxd⟩
      · exact Or.inr (hx ▸ hxd)
    · rintro (⟨x, hx, hxd⟩ | h)
      · exact ⟨x, Or.inl hx, hxd⟩
      · exact ⟨img, Or.inr rfl, h⟩

theorem distinct_insert (s : List Image) (img : Image) (h : distinctIds s) :
    distinctIds (insertImage s img) := by
  unfold insertImage
  split
  · exact h
  · rename_i hany
    rw [distinctIds, List.pairwise_append]
    refine ⟨h, List.pairwise_singleton _ _, ?_⟩
    intro a ha b hb
    simp only [List.mem_singleton] at hb
    subst hb
    intro hEq
    exact hany (List.any_eq_true.mpr ⟨a, ha, by simp [imageEq, hEq]⟩)

theorem countP_id_eq_one (s : List Image) (d : String) (hd : distinctIds s)
    (hh : hasId s d = true) : s.countP (fun img => img.id == d) = 1 := by
  induction s with
  | nil => simp [hasId] at hh
  | cons a t ih =>
    rw [distinctIds, List.pairwise_cons] at hd
    rw [List.countP_cons]
    by_cases had : a.id = d
    · have ht : t.countP (fun img => img.id == d) = 0 :=
        List.countP_eq_zero.mpr (fun b hb => by
          simp only [beq_iff_eq]
          intro hbd
          exact hd.1 b hb (had.trans hbd.symm))
      simp [ht, had]
    · have hh' : hasId t d = true := by
        rcases (hasId_iff _ _).mp hh with ⟨x, hx, hxd⟩
        rcases List.mem_cons.mp hx with hxa | hxt
        · exact absurd (hxa ▸ hxd) had
        · exact (hasId_iff _ _).mpr ⟨x, hxt, hxd⟩
      simp [ih hd.2 hh', had]

theorem hasId_extend (t : List Image) : ∀ s d,
    hasId (extendImages s t) d = true ↔ hasId s d = true ∨ hasId t d = true := by
  induction t with
  | nil => intro s d; simp [extendImages, hasId]
  | cons a t ih =>
    intro s d
    have hstep : extendImages s (a :: t) = extendImages (insertImage s a) t := rfl
    rw [hstep, ih, hasId_insert]
    have hcons : hasId (a :: t) d = true ↔ a.id = d ∨ hasId t d = true := by
      simp [hasId_iff]
    rw [hcons]
    tauto

theorem distinct_extend (t : List Image) : ∀ s, distinctIds s →
    distinctIds (extendImages s t) := by
  induction t with
  | nil => intro s h; exact h
  | cons a t ih => intro s h; exact ih (insertImage s a) (distinct_insert s a h)

/-! ### Lemmas about per-host collection -/

theorem Image.new_some (name id : String) (img : Image)
    (h : Image.new name id = some img) : normDigest id = some img.id := by
  unfold Image.new at h
  cases hm : normDigest id with
  | none => rw [hm] at h; simp at h
  | some dd =>
    rw [hm] at h
    simp only [Option.map_some'] at h
    have h2 : (⟨name, dd⟩ : Image) = img := Option.some.inj h
    rw [← h2]

theorem collect_hasId (cs : List Container) : ∀ acc s d,
    collectImages acc cs = some s →
    (hasId s d = true ↔
      hasId acc d = true ∨ cs.any (fun c => normDigest c.image_id == some d) = true) := by
  induction cs with
  | nil =>
    intro acc s d h
    simp only [collectImages, Option.some_inj] at h
    subst h
    simp
  | cons c cs ih =>
    intro acc s d h
    simp only [collectImages] at h
    cases hn : Image.new c.image c.image_id with
    | none => rw [hn] at h; simp at h
    | some img =>
      rw [hn] at h
      rw [ih (insertImage acc img) s d h, hasId_insert]
      have himg : normDigest c.image_id = some img.id := Image.new_some _ _ _ hn
      have hany : (List.any (c :: cs) fun c => normDigest c.image_id == some d) = true ↔
          img.id = d ∨ (List.any cs fun c => normDigest c.image_id == some d) = true := by
        simp [List.any_cons, himg]
      rw [hany]
      tauto

theorem collect_distinct (cs : List Container) : ∀ acc s, distinctIds acc →
    collectImages acc cs = some s → distinctIds s := by
  induction cs with
  | nil =>
    intro acc s hd h
    simp only [collectImages, Option.some_inj] at h
    exact h ▸ hd
  | cons c cs ih =>
    intro acc s hd h
    simp only [collectImages] at h
    cases hn : Image.new c.image c.image_id with
    | none => rw [hn] at h; simp at h
    | some img =>
      rw [hn] at h
      exact ih (insertImage acc img) s (distinct_insert acc img hd) h

theorem collect_isSome (cs : List Container)
    (hp : cs.all (fun c => (normDigest c.image_id).isSome) = true) :
    ∀ acc, (collectImages acc cs).isSome := by
  induction cs with
  | nil => intro acc; simp [collectImages]
  | cons c cs ih =>
    intro acc
    simp only [List.all_cons, Bool.and_eq_true] at hp
    rcases Option.isSome_iff_exists.mp hp.1 with ⟨dd, hdd⟩
    have hn : Image.new c.image c.image_id = some ⟨c.image, dd⟩ := by
      unfold Image.new; rw [hdd]; rfl
    simp only [collectImages, hn]
    exact ih hp.2 _

theorem collect_none (cs : List Container) (c : Container) (hc : c ∈ cs)
    (hbad : normDigest c.image_id = none) : ∀ acc, collectImages acc cs = none := by
  induction cs with
  | nil => cases hc
  | cons c0 cs ih =>
    intro acc
    rcases List.mem_cons.mp hc with hce | hcs
    · subst hce
      have hn : Image.new c.image c.image_id = none := by
        unfold Image.new; rw [hbad]; rfl
      simp [collectImages, hn]
    · simp only [collectImages]
      cases hn : Image.new c0.image c0.image_id with
      | none => rfl
      | some img => exact ih hcs _

/-! ### Lemmas about multi-host aggregation -/

theorem aggregate_hasId (hosts : List (Except String (List Container))) :
    ∀ acc logs res rlogs d, aggregate acc logs hosts = some (res, rlogs) →
    (hasId res d = true ↔ hasId acc d = true ∨ hosts.any (okHostHasDigest d) = true) := by
  induction hosts with
  | nil =>
    intro acc logs res rlogs d h
    simp only [aggregate, Option.some_inj, Prod.mk.injEq] at h
    rw [← h.1]
    simp
  | cons h0 hs ih =>
    intro acc logs res rlogs d h
    simp only [aggregate] at h
    cases h0 with
    | error e =>
      simp only [Docker.get_image_list] at h
      rw [ih _ _ _ _ d h]
      have he : okHostHasDigest d (Except.error e) = false := rfl
      simp [List.any_cons, he]
    | ok cs =>
      simp only [Docker.get_image_list] at h
      cases hc : collectImages [] cs with
      | none => rw [hc] at h; simp at h
      | some imgs =>
        rw [hc] at h
        simp only [Option.map_some'] at h
        rw [ih _ _ _ _ d h, hasId_extend]
        have himgs := collect_hasId cs [] imgs d hc
        have hok : okHostHasDigest d (Except.ok cs) =
            (cs.any fun c => normDigest c.image_id == some d) := rfl
        simp only [List.any_cons, Bool.or_eq_true, hok]
        simp only [hasId, List.any_nil, Bool.false_eq_true, false_or] at himgs
        simp only [hasId]
        rw [himgs]
        tauto

theorem aggregate_distinct (hosts : List (Except String (List Container))) :
    ∀ acc logs res rlogs, distinctIds acc →
    aggregate acc logs hosts = some (res, rlogs) → distinctIds res := by
  induction hosts with
  | nil =>
    intro acc logs res rlogs hd h
    simp only [aggregate, Option.some_inj, Prod.mk.injEq] at h
    exact h.1 ▸ hd
  | cons h0 hs ih =>
    intro acc logs res rlogs hd h
    simp only [aggregate] at h
    cases h0 with
    | error e =>
      simp only [Docker.get_image_list] at h
      exact ih _ _ _ _ hd h
    | ok cs =>
      simp only [Docker.get_image_list] at h
      cases hc : collectImages [] cs with
      | none => rw [hc] at h; simp at h
      | some imgs =>
        rw [hc] at h
        simp only [Option.map_some'] at h
        exact ih _ _ _ _ (distinct_extend imgs acc hd) h

theorem aggregate_logs (hosts : List (Except String (List Container))) :
    ∀ acc logs res rlogs, aggregate acc logs hosts = some (res, rlogs) →
    rlogs = logs ++ hosts.filterMap hostLog := by
  induction hosts with
  | nil =>
    intro acc logs res rlogs h
    simp only [aggregate, Option.some_inj, Prod.mk.injEq] at h
    simp [← h.2]
  | cons h0 hs ih =>
    intro acc logs res rlogs h
    simp only [aggregate] at h
    cases h0 with
    | error e =>
      simp only [Docker.get_image_list] at h
      rw [ih _ _ _ _ h]
      simp [hostLog, List.filterMap_cons]
    | ok cs =>
      simp only [Docker.get_image_list] at h
      cases hc : collectImages [] cs with
      | none => rw [hc] at h; simp at h
      | some imgs =>
        rw [hc] at h
        simp only [Option.map_some'] at h
        rw [ih _ _ _ _ h]
        simp [hostLog, List.filterMap_cons]

theorem aggregate_isSome (hosts : List (Except String (List Container)))
    (hp : hosts.all hostParses = true) :
    ∀ acc logs, (aggregate acc logs hosts).isSome := by
  induction hosts with
  | nil => intro acc logs; simp [aggregate]
  | cons h0 hs ih =>
    intro acc logs
    simp only [List.all_cons, Bool.and_eq_true] at hp
    simp only [aggregate]
    cases h0 with
    | error e => exact ih hp.2 _ _
    | ok cs =>
      have hsome := collect_isSome cs hp.1 []
      rcases Option.isSome_iff_exists.mp hsome with ⟨imgs, himgs⟩
      simp only [Docker.get_image_list, himgs, Option.map_some']
      exact ih hp.2 _ _

theorem aggregate_none (hosts : List (Except String (List Container)))
    (cs : List Container) (c : Container) (hh : Except.ok cs ∈ hosts)
    (hc : c ∈ cs) (hbad : normDigest c.image_id = none) :
    ∀ acc logs, aggregate acc logs hosts = none := by
  induction hosts with
  | nil => cases hh
  | cons h0 hs ih =>
    intro acc logs
    simp only [aggregate]
    rcases List.mem_cons.mp hh with he | hm
    · subst he
      simp [Docker.get_image_list, collect_none cs c hc hbad []]
    · cases hg : Docker.get_image_list h0 with
      | none => rfl
      | some p =>
        rcases p with ⟨op, l⟩
        cases op with
        | none => exact ih hm _ _
        | some imgs => exact ih hm _ _

theorem aggregate_all_error (hosts : List (Except String (List Container)))
    (hf : hosts.all isErrorHost = true) :
    ∀ acc logs, aggregate acc logs hosts = some (acc, logs ++ hosts.filterMap hostLog) := by
  induction hosts with
  | nil => intro acc logs; simp [aggregate]
  | cons h0 hs ih =>
    intro acc logs
    simp only [List.all_cons, Bool.and_eq_true] at hf
    cases h0 with
    | error e =>
      simp only [aggregate, Docker.get_image_list]
      rw [ih hf.2]
      simp [hostLog, List.filterMap_cons]
    | ok cs => simp [isErrorHost] at hf

theorem aggregate_ok_nil (hosts : List (Except String (List Container))) :
    ∀ acc logs, aggregate acc logs (hosts.map (fun _ => Except.ok [])) = some (acc, logs) := by
  induction hosts with
  | nil => intro acc logs; simp [aggregate]
  | cons h0 hs ih =>
    intro acc logs
    have hcoll : collectImages [] ([] : List Container) = some [] := rfl
    simp only [List.map_cons, aggregate, Docker.get_image_list, hcoll, Option.map_some']
    have hext : extendImages acc [] = acc := rfl
    rw [hext, List.append_nil, ih]

/-! ### Lemmas about template replacement -/

theorem replaceL_of_not_contains (pat rep : List Char) :
    ∀ s, containsSub pat s = false → replaceL pat rep s = s := by
  intro s
  induction s with
  | nil => intro _; simp [replaceL]
  | cons c cs ih =>
    intro h
    have hsplit : leadsWith pat (c :: cs) = false ∧ containsSub pat cs = false := by
      simpa [containsSub] using h
    have hcond : ¬ (pat ≠ [] ∧ leadsWith pat (c :: cs) = true) := by
      rintro ⟨-, hl⟩
      rw [hsplit.1] at hl
      cases hl
    simp only [replaceL, dif_neg hcond]
    rw [ih hsplit.2]

/-! ### Lemmas about the scan loop -/

theorem check_images_filter (spawn : Image → Option (Nat × String)) :
    ∀ images : List Image, (∀ i ∈ images, (spawn i).isSome = true) →
    ∃ ls, check_images spawn images =
      some (ls, images.filter (fun i => (spawn i).map Prod.fst != some 0)) := by
  intro images
  induction images with
  | nil => intro _; exact ⟨[], rfl⟩
  | cons img rest ih =>
    intro h
    have h1 : (spawn img).isSome = true := h img (List.mem_cons_self _ _)
    rcases Option.isSome_iff_exists.mp h1 with ⟨⟨code, out⟩, hs⟩
    rcases ih (fun i hi => h i (List.mem_cons_of_mem _ hi)) with ⟨ls, hrest⟩
    refine ⟨("Checking " ++ img.name) :: out :: ls, ?_⟩
    simp only [check_images, run_trivy, hs, Option.map_some', hrest, List.filter_cons]
    by_cases hc : code = 0
    · subst hc; simp
    · simp [hc]

/-! ### Lemmas about environment lookup -/

theorem find?_filter_of_imp {α : Type} (p q : α → Bool) (l : List α)
    (h : ∀ a, p a = true → q a = true) : (l.filter q).find? p = l.find? p := by
  induction l with
  | nil => rfl
  | cons a l ih =>
    rw [List.filter_cons]
    by_cases hq : q a = true
    · rw [if_pos hq]
      cases hp : p a <;> simp [List.find?_cons, hp, ih]
    · have hp : p a = false := by
        cases hpa : p a
        · rfl
        · exact absurd (h a hpa) hq
      rw [if_neg hq, ih]
      simp [List.find?_cons, hp]

/-! ### Claim theorems -/

/-- Claim C1: for every collection of hosts, whenever the aggregated
inventory is produced and some container on an `Ok` host (hence in
particular every pair of containers, on the same host or on different
hosts) has normalized content digest `d`, the resulting inventory set
contains exactly one image with digest `d`, regardless of display names. -/
theorem dedup_single_image_per_digest
    (hosts : List (Except String (List Container))) (d : String)
    (res : List Image) (logs : List String)
    (hres : Vec.get_image_list hosts = some (res, logs))
    (hd : hosts.any (okHostHasDigest d) = true) :
    res.countP (fun img => img.id == d) = 1 := by
  have hmem := (aggregate_hasId hosts [] [] res logs d hres).mpr (Or.inr hd)
  have hdist := aggregate_distinct hosts [] [] res logs List.Pairwise.nil hres
  exact countP_id_eq_one res d hdist hmem

/-- Witness for C1: two hosts report containers with digest `sha256:D1`
under different names, and the aggregated set holds exactly one image. -/
theorem dedup_single_image_per_digest_witness :
    ([⟨"svc:v1", "D1"⟩] : List Image).countP (fun img => img.id == "D1") = 1 :=
  dedup_single_image_per_digest
    [Except.ok [⟨"svc:v1", "sha256:D1"⟩], Except.ok [⟨"svc:v2", "sha256:D1"⟩]]
    "D1" [⟨"svc:v1", "D1"⟩] [] (by decide) (by decide)

/-- Claim C2: two images compare equal exactly when their `id` (content
digest) fields agree, and they hash identically under every hasher exactly
when their `id` fields agree; the `name` field plays no part. -/
theorem image_identity_iff (a b : Image) :
    (imageEq a b = true ↔ a.id = b.id) ∧
    ((∀ hasher : String → Nat, imageHash hasher a = imageHash hasher b) ↔
      a.id = b.id) := by
  constructor
  · simp [imageEq]
  · constructor
    · intro h
      have hx := h (fun s => if s = a.id then 0 else 1)
      simp only [imageHash] at hx
      by_cases hb : b.id = a.id
      · exact hb.symm
      · simp [hb] at hx
    · intro h hasher
      simp [imageHash, h]

/-- Witness for C2: images with different names but the same digest are
equal. -/
theorem image_identity_iff_witness :
    imageEq ⟨"app:v1", "x"⟩ ⟨"app:v2", "x"⟩ = true :=
  (image_identity_iff ⟨"app:v1", "x"⟩ ⟨"app:v2", "x"⟩).1.mpr rfl

/-- Claim C3: when the scanner spawns for every image, an image lands on the
vulnerable list exactly when its exit code is non-zero, and `run_trivy`
reports success exactly for exit code `0`. -/
theorem scan_exit_code_classification (spawn : Image → Option (Nat × String))
    (images : List Image) (h : ∀ i ∈ images, (spawn i).isSome = true) :
    (∃ ls, check_images spawn images =
      some (ls, images.filter (fun i => (spawn i).map Prod.fst != some 0))) ∧
    (∀ img code out, spawn img = some (code, out) →
      (run_trivy spawn img = some (true, out) ↔ code = 0)) := by
  constructor
  · exact check_images_filter spawn images h
  · intro img code out hs
    simp [run_trivy, hs]

/-- Witness for C3: with a scanner that exits `1` exactly on the image whose
digest is `v`, only that image is reported vulnerable. -/
theorem scan_exit_code_classification_witness :
    ∃ ls, check_images (fun i => some (if i.id == "v" then 1 else 0, ""))
      [⟨"clean", "c"⟩, ⟨"bad", "v"⟩] = some (ls, [⟨"bad", "v"⟩]) := by
  have h := (scan_exit_code_classification
    (fun i => some (if i.id == "v" then 1 else 0, ""))
    [⟨"clean", "c"⟩, ⟨"bad", "v"⟩] (by decide)).1
  rcases h with ⟨ls, hl⟩
  have hfil : ([⟨"clean", "c"⟩, ⟨"bad", "v"⟩] : List Image).filter
      (fun i => ((fun i : Image => some (if i.id == "v" then 1 else 0, ("" : String))) i).map
        Prod.fst != some 0) = [⟨"bad", "v"⟩] := by decide
  exact ⟨ls, by rw [hl, hfil]⟩

/-- Claim C4: the rendered notification is the template with every
occurrence of the literal `{name}` replaced by the display name and every
occurrence of `{id}` replaced by the content digest: the documented example
renders exactly, a template with neither placeholder renders unchanged, and
repeated occurrences of the same placeholder all substitute. -/
theorem template_substitution_behavior :
    renderMessage "Found: {name} ({id})" ⟨"app:latest", "abc123"⟩ =
      "Found: app:latest (abc123)" ∧
    (∀ (tmpl : String) (img : Image),
      containsSub ("{name}".data) tmpl.data = false →
      containsSub ("{id}".data) tmpl.data = false →
      renderMessage tmpl img = tmpl) ∧
    renderMessage "{name} and {name}" ⟨"app:latest", "abc123"⟩ =
      "app:latest and app:latest" ∧
    renderMessage "{id} {id}" ⟨"app:latest", "abc123"⟩ = "abc123 abc123" := by
  refine ⟨?_, ?_, ?_, ?_⟩
  · simp [renderMessage, strReplace, replaceL, leadsWith]
  · intro tmpl img h1 h2
    show (⟨replaceL ("{id}".data) img.id.data
      (replaceL ("{name}".data) img.name.data tmpl.data)⟩ : String) = tmpl
    rw [replaceL_of_not_contains _ _ tmpl.data h1,
      replaceL_of_not_contains _ _ tmpl.data h2]
  · simp [renderMessage, strReplace, replaceL, leadsWith]
  · simp [renderMessage, strReplace, replaceL, leadsWith]

/-- Witness for C4: a template without placeholders renders unchanged. -/
theorem template_substitution_behavior_witness :
    renderMessage "all quiet" ⟨"app:latest", "abc123"⟩ = "all quiet" :=
  template_substitution_behavior.2.1 "all quiet" ⟨"app:latest", "abc123"⟩
    (by decide) (by decide)

/-- Claim C5 (the code aborts instead): when the scanner subprocess fails to
spawn, `run_trivy`'s `expect` panics and the whole run terminates (`none`),
rather than logging and continuing with the image treated as scan-failed. -/
theorem spawn_failure_aborts_process :
    run_checker (fun _ => none) (fun _ _ => some true)
      [Except.ok [⟨"app:latest", "sha256:abc123"⟩]] "url" "tmpl" = none := by
  decide

/-- Claim C6: per-host query failure is isolated.  For any aggregated result,
an image digest is present exactly when some succeeding host reported a
container with that digest (so a failing host contributes nothing and later
hosts are still processed), the stderr log records exactly the failing
hosts, and whenever every container digest parses the aggregator returns a
set rather than aborting. -/
theorem host_failure_isolated (hosts : List (Except String (List Container)))
    (res : List Image) (logs : List String) (d : String)
    (hres : Vec.get_image_list hosts = some (res, logs)) :
    (hasId res d = true ↔ hosts.any (okHostHasDigest d) = true) ∧
    logs = hosts.filterMap hostLog ∧
    (hosts.all hostParses = true → (Vec.get_image_list hosts).isSome = true) := by
  refine ⟨?_, ?_, ?_⟩
  · rw [aggregate_hasId hosts [] [] res logs d hres]
    simp [hasId]
  · simpa using aggregate_logs hosts [] [] res logs hres
  · intro hp
    exact aggregate_isSome hosts hp [] []

/-- Witness for C6: one unreachable host plus one healthy host; the digest
from the healthy host survives and the failure is logged. -/
theorem host_failure_isolated_witness :
    (hasId [⟨"svc", "X"⟩] "X" = true ↔
      ([Except.error "down", Except.ok [⟨"svc", "sha256:X"⟩]].any
        (okHostHasDigest "X")) = true) ∧
    (["Error fetching images: down"] : List String) =
      [Except.error "down", Except.ok [⟨"svc", "sha256:X"⟩]].filterMap hostLog ∧
    ([Except.error "down", Except.ok [⟨"svc", "sha256:X"⟩]].all hostParses = true →
      (Vec.get_image_list
        [Except.error "down", Except.ok [⟨"svc", "sha256:X"⟩]]).isSome = true) :=
  host_failure_isolated [Except.error "down", Except.ok [⟨"svc", "sha256:X"⟩]]
    [⟨"svc", "X"⟩] ["Error fetching images: down"] "X" (by decide)

/-- Claim C7: when every host query fails, the run still returns a set (the
empty one), scans nothing, prints exactly "No vulnerabilities found" and
sends no notification — the same stdout report and notifications as a run
whose hosts all responded with no containers. -/
theorem all_hosts_failed_reports_clean
    (hosts : List (Except String (List Container)))
    (spawn : Image → Option (Nat × String))
    (sender : String → String → Option Bool) (url tmpl : String)
    (hf : hosts.all isErrorHost = true) :
    run_checker spawn sender hosts url tmpl =
      some (["No vulnerabilities found"], [], hosts.filterMap hostLog) ∧
    run_checker spawn sender (hosts.map (fun _ => Except.ok [])) url tmpl =
      some (["No vulnerabilities found"], [], []) := by
  constructor
  · have hagg := aggregate_all_error hosts hf [] []
    simp only [run_checker, Vec.get_image_list, hagg]
    simp [check_images]
  · have hagg := aggregate_ok_nil hosts [] []
    simp only [run_checker, Vec.get_image_list, hagg]
    simp [check_images]

/-- Witness for C7: a single failing host yields the clean-run report. -/
theorem all_hosts_failed_reports_clean_witness :
    run_checker (fun _ => some (0, "")) (fun _ _ => some true)
      [(Except.error "down" : Except String (List Container))] "url" "tmpl" =
      some (["No vulnerabilities found"], [],
        [(Except.error "down" : Except String (List Container))].filterMap hostLog) ∧
    run_checker (fun _ => some (0, "")) (fun _ _ => some true)
      ([(Except.error "down" : Except String (List Container))].map
        (fun _ => Except.ok [])) "url" "tmpl" =
      some (["No vulnerabilities found"], [], []) :=
  all_hosts_failed_reports_clean [(Except.error "down" : Except String (List Container))]
    (fun _ => some (0, "")) (fun _ _ => some true) "url" "tmpl" (by decide)

/-- Claim C8: constructing an image strips the algorithm tag from the raw
digest: `"sha256:abc123"` is stored as `"abc123"`, and in general any
colon-free algorithm tag is dropped in favour of the colon-free remainder. -/
theorem digest_tag_stripped :
    Image.new "app:latest" "sha256:abc123" = some ⟨"app:latest", "abc123"⟩ ∧
    (∀ (name : String) (a rest : List Char) (id : String),
      id.data = a ++ ':' :: rest → ':' ∉ a → ':' ∉ rest →
      Image.new name id = some ⟨name, ⟨rest⟩⟩) := by
  constructor
  · decide
  · intro name a rest id hid ha hr
    unfold Image.new
    rw [normDigest_strip a rest id hid ha hr]
    rfl

/-- Witness for C8: a digest qualified with a different algorithm tag is
stripped the same way. -/
theorem digest_tag_stripped_witness :
    Image.new "db" "md5:beef" = some ⟨"db", "beef"⟩ :=
  digest_tag_stripped.2 "db" "md5".data "beef".data "md5:beef"
    (by decide) (by decide) (by decide)

/-- Claim C10: an id without a colon makes `Image::new` panic (`none`), so
the aggregator aborts the whole run on any such container of a succeeding
host; and for an id with more than one colon only the segment between the
first and the second colon is kept. -/
theorem missing_colon_panics :
    (∀ name id : String, ':' ∉ id.data → Image.new name id = none) ∧
    Image.new "n" "a:b:c" = some ⟨"n", "b"⟩ ∧
    (∀ (hosts : List (Except String (List Container)))
      (cs : List Container) (c : Container),
      Except.ok cs ∈ hosts → c ∈ cs → ':' ∉ c.image_id.data →
      Vec.get_image_list hosts = none) ∧
    (∀ (name : String) (a b c : List Char) (id : String),
      id.data = a ++ ':' :: (b ++ ':' :: c) → ':' ∉ a → ':' ∉ b →
      Image.new name id = some ⟨name, ⟨b⟩⟩) := by
  refine ⟨?_, by decide, ?_, ?_⟩
  · intro name id h
    unfold Image.new
    rw [normDigest_no_colon id h]
    rfl
  · intro hosts cs c hh hc hbad
    exact aggregate_none hosts cs c hh hc (normDigest_no_colon _ hbad) [] []
  · intro name a b c id hid ha hb
    unfold Image.new
    rw [normDigest_middle a b c id hid ha hb]
    rfl

/-- Witness for C10: a bare id without a colon panics, and a run over a host
listing such a container aborts. -/
theorem missing_colon_panics_witness :
    Image.new "bare" "abc123" = none :=
  missing_colon_panics.1 "bare" "abc123" (by decide)

/-- Claim C9: the scanner subprocess environment is built from scratch: a
key resolves to the parent value exactly for keys with the TRIVY prefix
(falling back to the fixed template variable), every other key is absent,
and the environment depends only on the TRIVY-prefixed part of the parent
environment, so changing a non-prefixed variable never changes it. -/
theorem scanner_env_from_scratch :
    (∀ (parent : List (String × String)) (k : String),
      startsWithTrivy k = false → envLookup (trivyEnv parent) k = none) ∧
    (∀ (parent : List (String × String)) (k : String),
      startsWithTrivy k = true →
      envLookup (trivyEnv parent) k =
        (envLookup parent k).or
          (if k == "TRIVY_TEMPLATE" then some "@templates/html.tpl" else none)) ∧
    (∀ p1 p2 : List (String × String),
      p1.filter (fun kv => startsWithTrivy kv.1) =
        p2.filter (fun kv => startsWithTrivy kv.1) →
      trivyEnv p1 = trivyEnv p2) ∧
    (∀ (parent : List (String × String)) (kv : String × String),
      startsWithTrivy kv.1 = false → trivyEnv (kv :: parent) = trivyEnv parent) := by
  refine ⟨?_, ?_, ?_, ?_⟩
  · intro parent k hk
    simp only [envLookup, trivyEnv, List.reverse_cons, List.find?_append]
    have h1 : (parent.filter (fun kv => startsWithTrivy kv.1)).reverse.find?
        (fun kv => kv.1 == k) = none := by
      rw [List.find?_eq_none]
      intro kv hkv
      rw [List.mem_reverse, List.mem_filter] at hkv
      simp only [beq_iff_eq]
      intro hEq
      rw [hEq] at hkv
      rw [hkv.2] at hk
      cases hk
    have h2 : ([(("TRIVY_TEMPLATE" : String), ("@templates/html.tpl" : String))].find?
        (fun kv => kv.1 == k)) = none := by
      rw [List.find?_eq_none]
      intro kv hkv
      rw [List.mem_singleton] at hkv
      subst hkv
      simp only [beq_iff_eq]
      intro hEq
      rw [← hEq] at hk
      have htt : startsWithTrivy "TRIVY_TEMPLATE" = true := by decide
      rw [htt] at hk
      cases hk
    rw [h1, h2]
    rfl
  · intro parent k hk
    simp only [envLookup, trivyEnv, List.reverse_cons, List.find?_append]
    have hfr : (parent.filter (fun kv => startsWithTrivy kv.1)).reverse =
        parent.reverse.filter (fun kv => startsWithTrivy kv.1) :=
      (List.filter_reverse _ _).symm
    rw [hfr, find?_filter_of_imp _ _ _ (fun kv hkv => by
      simp only [beq_iff_eq] at hkv
      rw [hkv, hk])]
    cases hf : parent.reverse.find? (fun kv => kv.1 == k) with
    | some kv => rfl
    | none =>
      cases hkt : (k == "TRIVY_TEMPLATE") with
      | true =>
        have hkeq : k = "TRIVY_TEMPLATE" := beq_iff_eq.mp hkt
        subst hkeq
        rfl
      | false =>
        have hne : (("TRIVY_TEMPLATE" : String) == k) = false := by
          cases hx : (("TRIVY_TEMPLATE" : String) == k) with
          | false => rfl
          | true =>
            rw [beq_iff_eq] at hx
            rw [← hx] at hkt
            simp at hkt
        simp [List.find?, hne, hkt]
  · intro p1 p2 hfe
    simp only [trivyEnv]
    rw [hfe]
  · intro parent kv hkv
    simp only [trivyEnv, List.filter_cons]
    rw [if_neg (by simp [hkv])]

/-- Witness for C9: adding a non-TRIVY variable (such as PATH) to the parent
environment leaves the scanner environment unchanged. -/
theorem scanner_env_from_scratch_witness :
    trivyEnv (("PATH", "/usr/bin") :: [("TRIVY_SEVERITY", "HIGH")]) =
      trivyEnv [("TRIVY_SEVERITY", "HIGH")] :=
  scanner_env_from_scratch.2.2.2 [("TRIVY_SEVERITY", "HIGH")]
    ("PATH", "/usr/bin") (by decide)

end TrivyScheduler
